import Mathlib

/-
  Verification development for the sixerzone turf-booking frontend.

  Shallow embedding of:
  * the slot-selection engine of src/components/TimeSlotSelection.jsx
    (handleSlotClick, areSlotConsecutive, handleConfirmSelection),
  * the booking step wizard of src/components/CustomerBooking.jsx
    (handleDateSelect, handleSlotSelect, handleGroundSelect,
     handleBookingComplete and the two back callbacks),
  * the validators and formatters of src/utils/helpers.js
    (isValidPhone, isValidEmail, formatTime, formatTimeRange),
  * the Razorpay payment-verification handler of BookingForm.
-/

namespace Sixerzone

/-- One bookable hour slot as delivered by getAvailableSlots: a display
label `slot` and an `enabled` flag.  (TimeSlotSelection.jsx props.) -/
structure SlotObj where
  slot : String
  enabled : Bool
deriving Repr, DecidableEq

/-- One entry of the in-progress selection, exactly the object pushed by
handleSlotClick: `{ slot: slotObj.slot, index }`. -/
structure SelEntry where
  slot : String
  index : Nat
deriving Repr, DecidableEq

/-- Local state of the TimeSlotSelection component (the fields touched by
the modelled handlers). -/
structure SlotComponentState where
  slots : List SlotObj
  selectedSlots : List SelEntry
  loading : Bool
  error : Option String
deriving Repr, DecidableEq

/-- TimeSlotSelection.jsx handleSlotClick: a click on a disabled slot
returns immediately; otherwise the slot is removed from the selection when
already selected (filter on index) and appended otherwise. -/
def handleSlotClick (slotObj : SlotObj) (index : Nat)
    (st : SlotComponentState) : SlotComponentState :=
  if !slotObj.enabled then st
  else if st.selectedSlots.any (fun s => s.index == index) then
    { st with selectedSlots := st.selectedSlots.filter (fun s => s.index != index) }
  else
    { st with selectedSlots := st.selectedSlots ++ [⟨slotObj.slot, index⟩] }

/-- The for-loop of areSlotConsecutive: checks that each element of the
(sorted) index list is the predecessor plus one. -/
def consecCheck : List Nat → Bool
  | [] => true
  | [_] => true
  | a :: b :: rest => (b == a + 1) && consecCheck (b :: rest)

/-- TimeSlotSelection.jsx areSlotConsecutive: true for selections of length
at most one, otherwise the indices are sorted ascending and scanned for
step-1 gaps. -/
def areSlotConsecutive (selectedSlots : List SelEntry) : Bool :=
  if selectedSlots.length ≤ 1 then true
  else consecCheck (List.insertionSort (· ≤ ·) (selectedSlots.map (·.index)))

/-- Outcome of handleConfirmSelection: either a component error message is
set, or onSlotSelect is invoked with the first sorted slot's label, its
hour index, and the full sorted hour list. -/
inductive ConfirmResult where
  | error (msg : String)
  | selected (slot : String) (startHour : Nat) (hours : List Nat)
deriving Repr, DecidableEq

instance : DecidableRel (fun (a b : SelEntry) => a.index ≤ b.index) :=
  fun a b => Nat.decLe a.index b.index

/-- TimeSlotSelection.jsx handleConfirmSelection: empty selection and
non-consecutive selection each set a distinct error message and return;
otherwise the selection is sorted by index and passed to onSlotSelect as
(sortedSlots[0].slot, sortedSlots[0].index, hours). -/
def handleConfirmSelection (selectedSlots : List SelEntry) : ConfirmResult :=
  if selectedSlots.length = 0 then
    .error "Please select at least one time slot"
  else if !areSlotConsecutive selectedSlots then
    .error "Please select consecutive time slots only"
  else
    let sortedSlots :=
      List.insertionSort (fun a b => a.index ≤ b.index) selectedSlots
    let hours := sortedSlots.map (·.index)
    .selected (sortedSlots.headD ⟨"", 0⟩).slot
      (sortedSlots.headD ⟨"", 0⟩).index hours

/-- The ground record selected in step 3 (only its identity matters here). -/
structure Ground where
  id : Nat
  name : String
deriving Repr, DecidableEq

/-- A server-issued booking record, as carried by verifyPayment's response
and stored as the wizard's bookingConfirmation. -/
structure Booking where
  id : Nat
  name : String
  groundName : String
  totalAmount : Nat
deriving Repr, DecidableEq

/-- The slot value stored by CustomerBooking.handleSlotSelect:
`{ slot, hour, hours }`. -/
structure SelectedSlot where
  slot : String
  hour : Nat
  hours : List Nat
deriving Repr, DecidableEq

/-- The state fields of CustomerBooking.jsx.  Step 1 is DateSelection,
step 2 TimeSlotSelection, step 3 GroundSelection, step 4 BookingForm;
the confirmation view renders whenever bookingConfirmation is set. -/
structure WizardState where
  currentStep : Nat
  selectedDate : Option String
  selectedSlot : Option SelectedSlot
  selectedGround : Option Ground
  bookingConfirmation : Option Booking
deriving Repr, DecidableEq

/-- The initial useState values of CustomerBooking. -/
def initialWizard : WizardState :=
  { currentStep := 1, selectedDate := none, selectedSlot := none,
    selectedGround := none, bookingConfirmation := none }

/-- CustomerBooking.handleDateSelect. -/
def handleDateSelect (date : String) (w : WizardState) : WizardState :=
  { w with selectedDate := some date, currentStep := 2 }

/-- CustomerBooking.handleSlotSelect; `hours || [hour]` falls back to
`[hour]` only when the hours argument is not supplied. -/
def handleSlotSelect (slot : String) (hour : Nat) (hours : Option (List Nat))
    (w : WizardState) : WizardState :=
  { w with selectedSlot := some ⟨slot, hour, hours.getD [hour]⟩,
           currentStep := 3 }

/-- CustomerBooking.handleGroundSelect. -/
def handleGroundSelect (g : Ground) (w : WizardState) : WizardState :=
  { w with selectedGround := some g, currentStep := 4 }

/-- CustomerBooking.handleBookingComplete. -/
def handleBookingComplete (c : Booking) (w : WizardState) : WizardState :=
  { w with bookingConfirmation := some c }

/-- The onBack callback passed to TimeSlotSelection:
`() => setCurrentStep(1)`.  It changes only the step counter. -/
def slotStepBack (w : WizardState) : WizardState :=
  { w with currentStep := 1 }

/-- The onBack callback passed to GroundSelection:
`() => setCurrentStep(2)`. -/
def groundStepBack (w : WizardState) : WizardState :=
  { w with currentStep := 2 }

/-- CustomerBooking.handleStartOver. -/
def handleStartOver (_w : WizardState) : WizardState := initialWizard

/-- The confirm action as wired in the app: handleConfirmSelection either
sets a component-local error (the wizard state is untouched) or invokes
onSlotSelect, which is CustomerBooking.handleSlotSelect. -/
def confirmStep (sel : List SelEntry) (w : WizardState) : WizardState :=
  match handleConfirmSelection sel with
  | .selected s h hs => handleSlotSelect s h (some hs) w
  | .error _ => w

/-! helpers.js -/

/-- helpers.js isValidPhone: the test of the regular expression
`^\d{10}$` — exactly ten characters, each one of the digits 0-9. -/
def isValidPhone (s : String) : Bool :=
  s.data.length == 10 && s.data.all (fun c => c.isDigit)

/-- A character admitted by the class `[^\s@]` of the email regular
expression: neither whitespace nor the at sign. -/
def emailChar (c : Char) : Bool :=
  !c.isWhitespace && c != '@'

/-- Whether a character list splits as B followed by a dot followed by C
with B and C both non-empty — the `\.`-separated tail of the email
regular expression. -/
def dotSplit : List Char → Bool
  | [] => false
  | [_] => false
  | _ :: b :: t => (b == '.' && !t.isEmpty) || dotSplit (b :: t)

/-- helpers.js isValidEmail: the test of the regular expression
`^[^\s@]+@[^\s@]+\.[^\s@]+$`.  Any match puts the first at sign of the
string at the end of the first group, so the local part is the maximal
at-free prefix; the remainder must be non-empty, consist of class
characters, and split around a dot with non-empty sides. -/
def isValidEmail (s : String) : Bool :=
  let cs := s.data
  let localPart := cs.takeWhile (fun c => c != '@')
  match cs.dropWhile (fun c => c != '@') with
  | [] => false
  | _ :: rest =>
    !localPart.isEmpty && localPart.all emailChar &&
      rest.all emailChar && dotSplit rest

/-- helpers.js formatTime: 24-hour value to 12-hour display string. -/
def formatTime (hour : Nat) : String :=
  let displayHour : Nat := if hour % 12 = 0 then 12 else hour % 12
  let amPm : String := if hour < 12 then "AM" else "PM"
  toString displayHour ++ ":00 " ++ amPm

/-- helpers.js formatTimeRange: empty list renders empty, a singleton
renders `h to h+1`, otherwise the sorted list renders first element to
last element plus one. -/
def formatTimeRange (hours : List Nat) : String :=
  match hours with
  | [] => ""
  | [h] => formatTime h ++ " to " ++ formatTime (h + 1)
  | a :: b :: rest =>
    let sortedHours := List.insertionSort (· ≤ ·) (a :: b :: rest)
    formatTime (sortedHours.headD 0) ++ " to " ++
      formatTime (sortedHours.getLastD 0 + 1)

/-! The Razorpay success handler of BookingForm (src/unnamed/part_004):
after the widget reports payment success the handler awaits
verifyPayment and either completes the booking or falls back to the
form step with an error. -/

/-- The observable outcome of the awaited verifyPayment call: a resolved
response (with its success flag and booking) or a thrown error message. -/
inductive VerifyOutcome where
  | result (success : Bool) (booking : Booking)
  | exception (msg : String)
deriving Repr, DecidableEq

/-- The effect of running the handler body on the component: whether
onBookingComplete was invoked (and with which booking), the error
message set, the paymentStep value, and the loading flag. -/
structure HandlerEffect where
  completed : Option Booking
  error : Option String
  paymentStep : String
  loading : Bool
deriving Repr, DecidableEq

/-- BookingForm's Razorpay handler: on `verifyResult.success` it calls
onBookingComplete(verifyResult.booking) (paymentStep stays at
'verifying', loading stays true); otherwise, and on a caught exception,
it sets an error, clears loading and returns to the 'form' step.
An exception with an empty message falls back to the default text, as
`err.message || defaultText` does. -/
def razorpayHandler (v : VerifyOutcome) : HandlerEffect :=
  match v with
  | .result true b =>
    { completed := some b, error := none,
      paymentStep := "verifying", loading := true }
  | .result false _ =>
    { completed := none,
      error := some "Payment verification failed. Please contact support.",
      paymentStep := "form", loading := false }
  | .exception m =>
    { completed := none,
      error := some (if m = "" then
        "Payment verification failed. Please contact support." else m),
      paymentStep := "form", loading := false }

/-- The wizard as affected by a verification outcome: onBookingComplete
is CustomerBooking.handleBookingComplete and is invoked exactly when the
handler completes. -/
def wizardAfterVerify (v : VerifyOutcome) (w : WizardState) : WizardState :=
  match (razorpayHandler v).completed with
  | some b => handleBookingComplete b w
  | none => w

/-! Helper lemmas -/

/-- The scan of areSlotConsecutive succeeds exactly when every element of
the list is its predecessor plus one. -/
lemma consecCheck_iff : ∀ l : List Nat,
    consecCheck l = true ↔
      ∀ i, i + 1 < l.length → l.getD (i + 1) 0 = l.getD i 0 + 1
  | [] => by simp [consecCheck]
  | [a] => by simp [consecCheck]
  | a :: b :: t => by
    rw [consecCheck, Bool.and_eq_true]
    constructor
    · rintro ⟨h1, h2⟩ i hi
      match i with
      | 0 => simpa using beq_iff_eq.mp h1
      | j + 1 =>
        have hj : j + 1 < (b :: t).length := by
          simpa using Nat.lt_of_succ_lt_succ hi
        simpa using (consecCheck_iff (b :: t)).mp h2 j hj
    · intro h
      refine ⟨?_, (consecCheck_iff (b :: t)).mpr fun j hj => ?_⟩
      · have h0 : b = a + 1 := by simpa using h 0 (by simp)
        exact beq_iff_eq.mpr h0
      · have := h (j + 1) (by simpa using Nat.succ_lt_succ hj)
        simpa using this

/-- The head of an index-sorted entry list has the least index. -/
lemma head_min_of_sorted (l : List SelEntry)
    (hs : l.Sorted (fun a b => a.index ≤ b.index)) :
    ∀ e ∈ l, (l.headD ⟨"", 0⟩).index ≤ e.index := by
  cases l with
  | nil => simp
  | cons a t =>
    intro e he
    rcases List.mem_cons.mp he with rfl | ht
    · simp
    · simpa using (List.sorted_cons.mp hs).1 e ht

instance : IsTotal SelEntry (fun a b => a.index ≤ b.index) :=
  ⟨fun a b => Nat.le_total a.index b.index⟩

instance : IsTrans SelEntry (fun a b => a.index ≤ b.index) :=
  ⟨fun _ _ _ h1 h2 => Nat.le_trans h1 h2⟩

/-! Theorems -/

/-- C1: areSlotConsecutive returns true iff the selection is empty, a
singleton, or its hour indices sorted ascending form a run with step 1
between consecutive elements (so {5,6,7} passes, {5,7} fails, {5}
passes); it returns false otherwise. -/
theorem areSlotConsecutive_iff_run (sel : List SelEntry)
    (hrange : ∀ e ∈ sel, e.index < 24) :
    areSlotConsecutive sel = true ↔
      sel = [] ∨ sel.length = 1 ∨
      ∃ l : List Nat, List.Perm l (sel.map (·.index)) ∧
        l.Sorted (· ≤ ·) ∧
        ∀ i, i + 1 < l.length → l.getD (i + 1) 0 = l.getD i 0 + 1 := by
  unfold areSlotConsecutive
  by_cases hlen : sel.length ≤ 1
  · rw [if_pos hlen]
    cases sel with
    | nil => simp
    | cons e t =>
      cases t with
      | nil => simp
      | cons f t' => simp at hlen
  · rw [if_neg hlen]
    constructor
    · intro h
      exact Or.inr (Or.inr
        ⟨List.insertionSort (· ≤ ·) (sel.map (·.index)),
         List.perm_insertionSort _ _, List.sorted_insertionSort _ _,
         (consecCheck_iff _).mp h⟩)
    · rintro (rfl | h1 | ⟨l, hperm, hsort, hrun⟩)
      · simp at hlen
      · exact absurd (le_of_eq h1) hlen
      · have hl : l = List.insertionSort (· ≤ ·) (sel.map (·.index)) :=
          List.eq_of_perm_of_sorted
            (hperm.trans (List.perm_insertionSort _ _).symm)
            hsort (List.sorted_insertionSort _ _)
        subst hl
        exact (consecCheck_iff _).mpr hrun

/-- Witness for C1 at the selection {5,6,7} (hour indices in range). -/
theorem areSlotConsecutive_iff_run_witness :
    (∀ e ∈ ([⟨"f", 5⟩, ⟨"g", 6⟩, ⟨"h", 7⟩] : List SelEntry), e.index < 24) ∧
      (areSlotConsecutive [⟨"f", 5⟩, ⟨"g", 6⟩, ⟨"h", 7⟩] = true ↔
        ([⟨"f", 5⟩, ⟨"g", 6⟩, ⟨"h", 7⟩] : List SelEntry) = [] ∨
        ([⟨"f", 5⟩, ⟨"g", 6⟩, ⟨"h", 7⟩] : List SelEntry).length = 1 ∨
        ∃ l : List Nat,
          List.Perm l (([⟨"f", 5⟩, ⟨"g", 6⟩, ⟨"h", 7⟩] : List SelEntry).map (·.index)) ∧
          l.Sorted (· ≤ ·) ∧
          ∀ i, i + 1 < l.length → l.getD (i + 1) 0 = l.getD i 0 + 1) :=
  ⟨by decide, areSlotConsecutive_iff_run [⟨"f", 5⟩, ⟨"g", 6⟩, ⟨"h", 7⟩] (by decide)⟩

/-- Core fact about a successful confirmation: on a non-empty consecutive
selection, handleConfirmSelection emits the sorted hour list together with
the first sorted entry's label and index, and the wired-up confirm action
stores exactly that value in the wizard and advances to step 3. -/
lemma confirm_selected_core (sel : List SelEntry) (hne : sel ≠ [])
    (hcons : areSlotConsecutive sel = true) :
    ∃ s h hs, handleConfirmSelection sel = .selected s h hs ∧
      hs.Sorted (· ≤ ·) ∧ List.Perm hs (sel.map (·.index)) ∧
      h ∈ sel.map (·.index) ∧ (∀ j ∈ sel.map (·.index), h ≤ j) ∧
      ∀ w, confirmStep sel w =
        { w with selectedSlot := some ⟨s, h, hs⟩, currentStep := 3 } := by
  have hlen0 : ¬ sel.length = 0 := by simpa using hne
  have heq : handleConfirmSelection sel =
      .selected
        ((List.insertionSort (fun a b => a.index ≤ b.index) sel).headD ⟨"", 0⟩).slot
        ((List.insertionSort (fun a b => a.index ≤ b.index) sel).headD ⟨"", 0⟩).index
        ((List.insertionSort (fun a b => a.index ≤ b.index) sel).map (·.index)) := by
    unfold handleConfirmSelection
    rw [if_neg hlen0, hcons]
    simp
  have hperm := List.perm_insertionSort (fun a b => a.index ≤ b.index) sel
  have hsorted := List.sorted_insertionSort (fun a b => a.index ≤ b.index) sel
  refine ⟨_, _, _, heq, ?_, ?_, ?_, ?_, ?_⟩
  · exact List.pairwise_map.mpr hsorted
  · exact hperm.map (·.index)
  · cases hL : List.insertionSort (fun a b => a.index ≤ b.index) sel with
    | nil =>
      rw [hL] at hperm
      exact absurd hperm.symm.eq_nil hne
    | cons e t =>
      have he : e ∈ sel := hperm.mem_iff.mp (by rw [hL]; exact List.mem_cons_self e t)
      simpa using List.mem_map_of_mem (·.index) he
  · intro j hj
    rcases List.mem_map.mp hj with ⟨f, hf, rfl⟩
    exact head_min_of_sorted _ hsorted f (hperm.mem_iff.mpr hf)
  · intro w
    unfold confirmStep
    rw [heq]
    rfl

/-- C2: on any non-empty consecutive selection, confirming produces the
normalized result — the emitted hour list is the chosen hours sorted
ascending and the emitted start hour is the least chosen hour — and the
wizard's onSlotSelect stores that pair and advances to the ground step. -/
theorem confirm_success_normalizes (sel : List SelEntry) (hne : sel ≠ [])
    (hcons : areSlotConsecutive sel = true) :
    ∃ s h hs, handleConfirmSelection sel = .selected s h hs ∧
      hs.Sorted (· ≤ ·) ∧ List.Perm hs (sel.map (·.index)) ∧
      h ∈ sel.map (·.index) ∧ (∀ j ∈ sel.map (·.index), h ≤ j) ∧
      ∀ w, confirmStep sel w =
        { w with selectedSlot := some ⟨s, h, hs⟩, currentStep := 3 } :=
  confirm_selected_core sel hne hcons

/-- Witness for C2 at the selection {14,15,16}, confirming the claim's
example output startHour 14 and hours [14,15,16]. -/
theorem confirm_success_normalizes_witness :
    (∃ s h hs,
      handleConfirmSelection [⟨"C", 16⟩, ⟨"A", 14⟩, ⟨"B", 15⟩] = .selected s h hs ∧
      hs.Sorted (· ≤ ·) ∧
      List.Perm hs (([⟨"C", 16⟩, ⟨"A", 14⟩, ⟨"B", 15⟩] : List SelEntry).map (·.index)) ∧
      h ∈ ([⟨"C", 16⟩, ⟨"A", 14⟩, ⟨"B", 15⟩] : List SelEntry).map (·.index) ∧
      (∀ j ∈ ([⟨"C", 16⟩, ⟨"A", 14⟩, ⟨"B", 15⟩] : List SelEntry).map (·.index), h ≤ j) ∧
      ∀ w, confirmStep [⟨"C", 16⟩, ⟨"A", 14⟩, ⟨"B", 15⟩] w =
        { w with selectedSlot := some ⟨s, h, hs⟩, currentStep := 3 }) ∧
    handleConfirmSelection [⟨"C", 16⟩, ⟨"A", 14⟩, ⟨"B", 15⟩] =
      .selected "A" 14 [14, 15, 16] :=
  ⟨confirm_success_normalizes [⟨"C", 16⟩, ⟨"A", 14⟩, ⟨"B", 15⟩]
    (by decide) (by decide), by decide⟩

/-- C3: confirming an empty selection reports the no-slot message, and
confirming a non-empty non-consecutive selection reports the
non-consecutive message; in both cases the wizard state is left
completely unchanged (onSlotSelect is never invoked). -/
theorem confirm_invalid_reports (sel : List SelEntry) :
    (sel = [] →
      handleConfirmSelection sel = .error "Please select at least one time slot" ∧
      ∀ w, confirmStep sel w = w) ∧
    (sel ≠ [] → areSlotConsecutive sel = false →
      handleConfirmSelection sel = .error "Please select consecutive time slots only" ∧
      ∀ w, confirmStep sel w = w) := by
  constructor
  · rintro rfl
    constructor
    · rfl
    · intro w; rfl
  · intro hne hcons
    have hlen0 : ¬ sel.length = 0 := by simpa using hne
    have heq : handleConfirmSelection sel =
        .error "Please select consecutive time slots only" := by
      unfold handleConfirmSelection
      rw [if_neg hlen0, hcons]
      simp
    refine ⟨heq, fun w => ?_⟩
    unfold confirmStep
    rw [heq]

/-- Witness for C3 at the empty selection and at the claim's example
{3,4,6}. -/
theorem confirm_invalid_reports_witness :
    (handleConfirmSelection ([] : List SelEntry) =
        .error "Please select at least one time slot" ∧
      ∀ w, confirmStep [] w = w) ∧
    (handleConfirmSelection [⟨"d", 3⟩, ⟨"e", 4⟩, ⟨"g", 6⟩] =
        .error "Please select consecutive time slots only" ∧
      ∀ w, confirmStep [⟨"d", 3⟩, ⟨"e", 4⟩, ⟨"g", 6⟩] w = w) :=
  ⟨(confirm_invalid_reports []).1 rfl,
   (confirm_invalid_reports [⟨"d", 3⟩, ⟨"e", 4⟩, ⟨"g", 6⟩]).2
     (by decide) (by decide)⟩

/-- C4 counterexample: running DateStep → SlotStep → GroundStep → back →
back from the initial wizard state ends at the date step with the ground
unset, but the stored finalizedSlot is NOT discarded: the slot-step back
callback only rewinds the step counter, so selectedSlot still holds the
confirmed slot, contradicting the claim that both fields end up unset. -/
theorem wizard_back_retains_slot_counterexample :
    (slotStepBack (groundStepBack (confirmStep [⟨"2:00 PM to 3:00 PM", 14⟩]
        (handleDateSelect "2026-02-10" initialWizard)))).currentStep = 1 ∧
    (slotStepBack (groundStepBack (confirmStep [⟨"2:00 PM to 3:00 PM", 14⟩]
        (handleDateSelect "2026-02-10" initialWizard)))).selectedGround = none ∧
    (slotStepBack (groundStepBack (confirmStep [⟨"2:00 PM to 3:00 PM", 14⟩]
        (handleDateSelect "2026-02-10" initialWizard)))).selectedSlot =
      some ⟨"2:00 PM to 3:00 PM", 14, [14]⟩ := by
  decide

/-- C4 amended: after DateStep → SlotStep → GroundStep → back → back the
wizard is back at the date step with ground (and confirmation) unset, but
the finalizedSlot field retains the previously confirmed slot unchanged —
the SlotStep back action only rewinds the step counter and does not
discard the stored slot. -/
theorem wizard_back_retains_slot (d : String) (sel : List SelEntry)
    (hne : sel ≠ []) (hcons : areSlotConsecutive sel = true) :
    (slotStepBack (groundStepBack (confirmStep sel
        (handleDateSelect d initialWizard)))).currentStep = 1 ∧
    (slotStepBack (groundStepBack (confirmStep sel
        (handleDateSelect d initialWizard)))).selectedGround = none ∧
    (slotStepBack (groundStepBack (confirmStep sel
        (handleDateSelect d initialWizard)))).bookingConfirmation = none ∧
    (slotStepBack (groundStepBack (confirmStep sel
        (handleDateSelect d initialWizard)))).selectedSlot =
      (confirmStep sel (handleDateSelect d initialWizard)).selectedSlot ∧
    (slotStepBack (groundStepBack (confirmStep sel
        (handleDateSelect d initialWizard)))).selectedSlot ≠ none := by
  obtain ⟨s, h, hs, -, -, -, -, -, hw⟩ := confirm_selected_core sel hne hcons
  rw [hw]
  simp [slotStepBack, groundStepBack, handleDateSelect, initialWizard]

/-- Witness for C4 amended at a concrete date and the singleton slot 14. -/
theorem wizard_back_retains_slot_witness :
    (slotStepBack (groundStepBack (confirmStep [⟨"2:00 PM to 3:00 PM", 14⟩]
        (handleDateSelect "2026-02-10" initialWizard)))).currentStep = 1 ∧
    (slotStepBack (groundStepBack (confirmStep [⟨"2:00 PM to 3:00 PM", 14⟩]
        (handleDateSelect "2026-02-10" initialWizard)))).selectedGround = none ∧
    (slotStepBack (groundStepBack (confirmStep [⟨"2:00 PM to 3:00 PM", 14⟩]
        (handleDateSelect "2026-02-10" initialWizard)))).bookingConfirmation = none ∧
    (slotStepBack (groundStepBack (confirmStep [⟨"2:00 PM to 3:00 PM", 14⟩]
        (handleDateSelect "2026-02-10" initialWizard)))).selectedSlot =
      (confirmStep [⟨"2:00 PM to 3:00 PM", 14⟩]
        (handleDateSelect "2026-02-10" initialWizard)).selectedSlot ∧
    (slotStepBack (groundStepBack (confirmStep [⟨"2:00 PM to 3:00 PM", 14⟩]
        (handleDateSelect "2026-02-10" initialWizard)))).selectedSlot ≠ none :=
  wizard_back_retains_slot "2026-02-10" [⟨"2:00 PM to 3:00 PM", 14⟩]
    (by decide) (by decide)

/-- C5: the booking-complete callback fires iff verifyPayment resolved
with success true, so the wizard never gains a confirmation without a
verified booking; on a failed verification or a thrown verification
error the handler returns to the form step with an error set (the
failed-verification message tells the user to contact support), and the
wizard state is untouched — there is no automatic retry path. -/
theorem confirmed_only_with_verified_booking (v : VerifyOutcome)
    (w : WizardState) (hw : w.bookingConfirmation = none) :
    ((wizardAfterVerify v w).bookingConfirmation ≠ none ↔
      ∃ b, v = .result true b) ∧
    (∀ b, v = .result true b →
      (wizardAfterVerify v w).bookingConfirmation = some b) ∧
    ((∀ b, v ≠ .result true b) →
      wizardAfterVerify v w = w ∧
      (razorpayHandler v).paymentStep = "form" ∧
      (razorpayHandler v).error.isSome = true) ∧
    (∀ b, v = .result false b →
      (razorpayHandler v).error =
        some "Payment verification failed. Please contact support.") := by
  match v with
  | .result true b =>
    refine ⟨?_, ?_, ?_, ?_⟩
    · simp [wizardAfterVerify, razorpayHandler, handleBookingComplete]
    · rintro b' hb'
      cases hb'
      rfl
    · intro hno
      exact absurd rfl (hno b)
    · rintro b' ⟨⟩
  | .result false b =>
    refine ⟨?_, ?_, ?_, ?_⟩
    · simp [wizardAfterVerify, razorpayHandler, hw]
    · rintro b' ⟨⟩
    · intro _
      exact ⟨rfl, rfl, rfl⟩
    · rintro b' hb'
      cases hb'
      rfl
  | .exception m =>
    refine ⟨?_, ?_, ?_, ?_⟩
    · simp [wizardAfterVerify, razorpayHandler, hw]
    · rintro b' ⟨⟩
    · intro _
      refine ⟨rfl, rfl, ?_⟩
      by_cases hm : m = "" <;> simp [razorpayHandler, hm]
    · rintro b' ⟨⟩

/-- Witness for C5: a failed verification against an empty wizard leaves
everything in place, and a successful one stores the booking. -/
theorem confirmed_only_with_verified_booking_witness :
    (((wizardAfterVerify (.result false ⟨7, "n", "g", 800⟩) initialWizard).bookingConfirmation ≠ none ↔
        ∃ b, (VerifyOutcome.result false ⟨7, "n", "g", 800⟩) = .result true b) ∧
      (∀ b, (VerifyOutcome.result false ⟨7, "n", "g", 800⟩) = .result true b →
        (wizardAfterVerify (.result false ⟨7, "n", "g", 800⟩) initialWizard).bookingConfirmation = some b) ∧
      ((∀ b, (VerifyOutcome.result false ⟨7, "n", "g", 800⟩) ≠ .result true b) →
        wizardAfterVerify (.result false ⟨7, "n", "g", 800⟩) initialWizard = initialWizard ∧
        (razorpayHandler (.result false ⟨7, "n", "g", 800⟩)).paymentStep = "form" ∧
        (razorpayHandler (.result false ⟨7, "n", "g", 800⟩)).error.isSome = true) ∧
      (∀ b, (VerifyOutcome.result false ⟨7, "n", "g", 800⟩) = .result false b →
        (razorpayHandler (.result false ⟨7, "n", "g", 800⟩)).error =
          some "Payment verification failed. Please contact support.")) ∧
    (wizardAfterVerify (.result true ⟨7, "n", "g", 800⟩) initialWizard).bookingConfirmation =
      some ⟨7, "n", "g", 800⟩ :=
  ⟨confirmed_only_with_verified_booking (.result false ⟨7, "n", "g", 800⟩)
    initialWizard (by decide), by decide⟩

/-- C6: clicking a disabled slot is a no-op — the component state is
returned completely unchanged, with no error raised. -/
theorem disabled_slot_click_noop (slotObj : SlotObj) (index : Nat)
    (st : SlotComponentState) (hdis : slotObj.enabled = false) :
    handleSlotClick slotObj index st = st := by
  unfold handleSlotClick
  rw [hdis]
  rfl

/-- Witness for C6 at a concrete disabled slot and a populated state. -/
theorem disabled_slot_click_noop_witness :
    handleSlotClick ⟨"9:00 AM to 10:00 AM", false⟩ 9
      ⟨[⟨"9:00 AM to 10:00 AM", false⟩], [⟨"x", 3⟩], false, none⟩ =
      ⟨[⟨"9:00 AM to 10:00 AM", false⟩], [⟨"x", 3⟩], false, none⟩ :=
  disabled_slot_click_noop ⟨"9:00 AM to 10:00 AM", false⟩ 9
    ⟨[⟨"9:00 AM to 10:00 AM", false⟩], [⟨"x", 3⟩], false, none⟩ rfl

/-- C7: toggling the slot at a position of the current slot list twice in
a row restores the original chosen-hours set: an hour index is selected
after the double toggle exactly when it was selected before. -/
theorem toggle_twice_restores_hours (st : SlotComponentState) (i : Nat)
    (_hi : i < st.slots.length) :
    ∀ j, j ∈ ((handleSlotClick (st.slots.getD i ⟨"", false⟩) i
          (handleSlotClick (st.slots.getD i ⟨"", false⟩) i st)).selectedSlots.map
            (·.index)) ↔
        j ∈ st.selectedSlots.map (·.index) := by
  intro j
  set o := st.slots.getD i ⟨"", false⟩ with ho
  by_cases hen : o.enabled = true
  · by_cases hsel : (st.selectedSlots.any fun s => s.index == i) = true
    · -- already selected: first click filters the index out, second
      -- click appends it back
      have hstep1 : handleSlotClick o i st =
          { st with selectedSlots :=
              st.selectedSlots.filter (fun s => s.index != i) } := by
        simp [handleSlotClick, hen, hsel]
      have hnone : ((st.selectedSlots.filter (fun s => s.index != i)).any
          fun s => s.index == i) = false := by
        apply Bool.eq_false_iff.mpr
        intro hc
        rcases List.any_eq_true.mp hc with ⟨e, hef, hei⟩
        rcases List.mem_filter.mp hef with ⟨-, hne⟩
        exact absurd (beq_iff_eq.mp hei) (by simpa using hne)
      have hstep2 : handleSlotClick o i (handleSlotClick o i st) =
          { st with selectedSlots :=
              st.selectedSlots.filter (fun s => s.index != i) ++
                [{ slot := o.slot, index := i }] } := by
        rw [hstep1]
        simp [handleSlotClick, hen, hnone]
      rw [hstep2]
      constructor
      · intro hjmem
        rcases List.mem_map.mp hjmem with ⟨e, he, rfl⟩
        rcases List.mem_append.mp he with hef | hesing
        · exact List.mem_map_of_mem _ (List.mem_filter.mp hef).1
        · have he' : e = ({ slot := o.slot, index := i } : SelEntry) := by
            simpa using hesing
          subst he'
          rcases List.any_eq_true.mp hsel with ⟨f, hf, hfi⟩
          exact List.mem_map.mpr ⟨f, hf, beq_iff_eq.mp hfi⟩
      · intro hjmem
        rcases List.mem_map.mp hjmem with ⟨e, he, rfl⟩
        by_cases hei : e.index = i
        · refine List.mem_map.mpr
            ⟨{ slot := o.slot, index := i }, List.mem_append.mpr (Or.inr (by simp)), ?_⟩
          exact hei.symm
        · exact List.mem_map.mpr
            ⟨e, List.mem_append.mpr
              (Or.inl (List.mem_filter.mpr ⟨he, by simpa using hei⟩)), rfl⟩
    · -- not selected: first click appends, second click filters; the
      -- filter removes exactly the appended entry
      have hsel' : (st.selectedSlots.any fun s => s.index == i) = false :=
        eq_false_of_ne_true hsel
      have hstep1 : handleSlotClick o i st =
          { st with selectedSlots :=
              st.selectedSlots ++ [{ slot := o.slot, index := i }] } := by
        simp [handleSlotClick, hen, hsel']
      have hmem : ((st.selectedSlots ++ [({ slot := o.slot, index := i } : SelEntry)]).any
          fun s => s.index == i) = true := by
        simp
      have hfree : ∀ e ∈ st.selectedSlots, (e.index != i) = true := by
        intro e he
        have hne : e.index ≠ i := fun hc =>
          hsel (List.any_eq_true.mpr ⟨e, he, beq_iff_eq.mpr hc⟩)
        simpa using hne
      have hfilter : (st.selectedSlots ++ [({ slot := o.slot, index := i } : SelEntry)]).filter
          (fun s => s.index != i) = st.selectedSlots := by
        rw [List.filter_append, List.filter_eq_self.mpr hfree]
        simp
      have hstep2 : handleSlotClick o i (handleSlotClick o i st) = st := by
        rw [hstep1]
        simp [handleSlotClick, hen, hmem, hfilter]
      rw [hstep2]
  · have hnoop : handleSlotClick o i st = st := by
      unfold handleSlotClick
      rw [eq_false_of_ne_true hen]
      rfl
    rw [hnoop, hnoop]

/-- Witness for C7 at a two-slot list and a selection already holding
hour 1 (slot position 1 is toggled twice). -/
theorem toggle_twice_restores_hours_witness :
    1 ∈ ((handleSlotClick
            ((⟨[⟨"s0", true⟩, ⟨"s1", true⟩], [⟨"s1", 1⟩], false, none⟩ :
              SlotComponentState).slots.getD 1 ⟨"", false⟩) 1
          (handleSlotClick
            ((⟨[⟨"s0", true⟩, ⟨"s1", true⟩], [⟨"s1", 1⟩], false, none⟩ :
              SlotComponentState).slots.getD 1 ⟨"", false⟩) 1
            ⟨[⟨"s0", true⟩, ⟨"s1", true⟩], [⟨"s1", 1⟩], false, none⟩)).selectedSlots.map
          (·.index)) ↔
        1 ∈ (⟨[⟨"s0", true⟩, ⟨"s1", true⟩], [⟨"s1", 1⟩], false, none⟩ :
          SlotComponentState).selectedSlots.map (·.index) :=
  toggle_twice_restores_hours
    ⟨[⟨"s0", true⟩, ⟨"s1", true⟩], [⟨"s1", 1⟩], false, none⟩ 1 (by decide) 1

/-- C8: the phone validator accepts exactly the strings made of ten digit
characters — anything containing a non-digit, or shorter or longer than
ten characters, is rejected. -/
theorem phone_validator_exact (s : String) :
    isValidPhone s = true ↔
      s.data.length = 10 ∧ ∀ c ∈ s.data, c.isDigit = true := by
  simp [isValidPhone]

/-- dotSplit decides exactly the existence of a dot split with non-empty
sides. -/
lemma dotSplit_iff : ∀ l : List Char,
    dotSplit l = true ↔ ∃ B C, B ≠ [] ∧ C ≠ [] ∧ l = B ++ '.' :: C
  | [] => by
    constructor
    · intro h
      simp [dotSplit] at h
    · rintro ⟨B, C, hB, -, h⟩
      exact absurd h.symm (by simp [hB])
  | [a] => by
    constructor
    · intro h
      simp [dotSplit] at h
    · rintro ⟨B, C, hB, hC, hl⟩
      have hlen := congrArg List.length hl
      have hBl : 0 < B.length := List.length_pos.mpr hB
      have hCl : 0 < C.length := List.length_pos.mpr hC
      simp at hlen
      omega
  | a :: b :: t => by
    rw [dotSplit, Bool.or_eq_true, Bool.and_eq_true]
    constructor
    · rintro (⟨hdot, hne⟩ | htail)
      · refine ⟨[a], t, by simp, ?_, by simp [beq_iff_eq.mp hdot]⟩
        intro ht
        rw [ht] at hne
        simp at hne
      · rcases (dotSplit_iff (b :: t)).mp htail with ⟨B, C, hB, hC, hl⟩
        exact ⟨a :: B, C, by simp, hC, by rw [List.cons_append, ← hl]⟩
    · rintro ⟨B, C, hB, hC, hl⟩
      match B, hB with
      | b0 :: B', _ =>
        rw [List.cons_append] at hl
        injection hl with h1 h2
        cases B' with
        | nil =>
          rw [List.nil_append] at h2
          injection h2 with hb ht
          subst ht
          left
          refine ⟨beq_iff_eq.mpr hb, ?_⟩
          simpa [List.isEmpty_iff] using hC
        | cons b1 B'' =>
          right
          exact (dotSplit_iff (b :: t)).mpr ⟨b1 :: B'', C, by simp, hC, h2⟩

/-- takeWhile/dropWhile on a list whose prefix avoids the at sign split
precisely at the first at sign. -/
lemma split_at_first_at (A : List Char) (r : List Char)
    (hA : ∀ c ∈ A, (c != '@') = true) :
    (A ++ '@' :: r).takeWhile (fun c => c != '@') = A ∧
    (A ++ '@' :: r).dropWhile (fun c => c != '@') = '@' :: r := by
  induction A with
  | nil =>
    constructor
    · rw [List.nil_append, List.takeWhile_cons]
      simp
    · rw [List.nil_append, List.dropWhile_cons]
      simp
  | cons a A' ih =>
    have ha := hA a (by simp)
    obtain ⟨ih1, ih2⟩ := ih fun c hc => hA c (by simp [hc])
    constructor
    · rw [List.cons_append, List.takeWhile_cons, ha]
      simp [ih1]
    · rw [List.cons_append, List.dropWhile_cons, ha]
      simp [ih2]

/-- The first element surviving dropWhile falsifies the predicate. -/
lemma dropWhile_head_not (p : Char → Bool) :
    ∀ (l : List Char) (x : Char) (xs : List Char),
      l.dropWhile p = x :: xs → p x = false := by
  intro l
  induction l with
  | nil =>
    intro x xs h
    simp at h
  | cons a t ih =>
    intro x xs h
    rw [List.dropWhile_cons] at h
    by_cases hp : p a = true
    · rw [if_pos hp] at h
      exact ih x xs h
    · rw [if_neg hp] at h
      injection h with h1 h2
      subst h1
      exact eq_false_of_ne_true hp

/-- C9 counterexample: "a@b@c.com" matches the claimed pattern
non-whitespace+ at non-whitespace+ dot non-whitespace+ (split it as "a",
"b@c", "com"), yet the validator rejects it, because the regular
expression's character class also excludes the at sign. -/
theorem email_validator_counterexample :
    (∃ X Y Z : List Char, X ≠ [] ∧ Y ≠ [] ∧ Z ≠ [] ∧
      (∀ c ∈ X, ¬ c.isWhitespace) ∧ (∀ c ∈ Y, ¬ c.isWhitespace) ∧
      (∀ c ∈ Z, ¬ c.isWhitespace) ∧
      ("a@b@c.com" : String).data = X ++ '@' :: (Y ++ '.' :: Z)) ∧
    isValidEmail "a@b@c.com" = false :=
  ⟨⟨['a'], ['b', '@', 'c'], ['c', 'o', 'm'],
    by simp, by simp, by simp, by decide, by decide, by decide, by decide⟩,
   by decide⟩

/-- C9 amended: the validator returns true exactly for strings of the
form part at part dot part where every part is a non-empty run of
characters that are neither whitespace nor the at sign (not merely
non-whitespace, as the claim put it); it still accepts "a@b.co" and
rejects "a@b" and "a.com". -/
theorem email_validator_exact :
    (∀ s : String, isValidEmail s = true ↔
      ∃ A B C : List Char, A ≠ [] ∧ B ≠ [] ∧ C ≠ [] ∧
        (∀ c ∈ A, emailChar c = true) ∧ (∀ c ∈ B, emailChar c = true) ∧
        (∀ c ∈ C, emailChar c = true) ∧
        s.data = A ++ '@' :: (B ++ '.' :: C)) ∧
    isValidEmail "a@b.co" = true ∧ isValidEmail "a@b" = false ∧
    isValidEmail "a.com" = false := by
  refine ⟨?_, by decide, by decide, by decide⟩
  intro s
  simp only [isValidEmail]
  constructor
  · intro h
    rcases hdw : s.data.dropWhile (fun c => c != '@') with _ | ⟨x, rest⟩
    · rw [hdw] at h
      simp at h
    · rw [hdw] at h
      rw [Bool.and_eq_true, Bool.and_eq_true, Bool.and_eq_true] at h
      obtain ⟨⟨⟨hAne, hAall⟩, hrall⟩, hdot⟩ := h
      have hx : x = '@' := by
        simpa using dropWhile_head_not (fun c => c != '@') s.data x rest hdw
      rcases (dotSplit_iff rest).mp hdot with ⟨B, C, hB, hC, rfl⟩
      refine ⟨s.data.takeWhile (fun c => c != '@'), B, C, ?_, hB, hC,
        ?_, ?_, ?_, ?_⟩
      · intro hnil
        rw [hnil] at hAne
        simp at hAne
      · exact fun c hc => List.all_eq_true.mp hAall c hc
      · exact fun c hc =>
          List.all_eq_true.mp hrall c (List.mem_append.mpr (Or.inl hc))
      · exact fun c hc =>
          List.all_eq_true.mp hrall c
            (List.mem_append.mpr (Or.inr (List.mem_cons_of_mem _ hc)))
      · conv_lhs =>
          rw [← List.takeWhile_append_dropWhile (fun c => c != '@') s.data]
        rw [hdw, hx]
  · rintro ⟨A, B, C, hA, hB, hC, hAe, hBe, hCe, hseq⟩
    have hAat : ∀ c ∈ A, (c != '@') = true := by
      intro c hc
      have hce := hAe c hc
      rw [emailChar, Bool.and_eq_true] at hce
      exact hce.2
    obtain ⟨htw, hdw⟩ := split_at_first_at A (B ++ '.' :: C) hAat
    rw [hseq, hdw, htw]
    have hBall : (B ++ '.' :: C).all emailChar = true := by
      rw [List.all_eq_true]
      intro c hc
      rcases List.mem_append.mp hc with hcB | hcC
      · exact hBe c hcB
      · rcases List.mem_cons.mp hcC with rfl | hcC'
        · decide
        · exact hCe c hcC'
    have hdots : dotSplit (B ++ '.' :: C) = true :=
      (dotSplit_iff _).mpr ⟨B, C, hB, hC, rfl⟩
    have hAall : A.all emailChar = true := List.all_eq_true.mpr hAe
    have hAne : A.isEmpty = false := by
      simpa [List.isEmpty_iff] using hA
    simp [hBall, hdots, hAall, hAne]

/-- The last element of a sorted list with an upper-bound member is that
member, whatever the default. -/
lemma sorted_getLastD_eq (l : List Nat) :
    ∀ (d m : Nat), l.Sorted (· ≤ ·) → m ∈ l → (∀ x ∈ l, x ≤ m) →
      l.getLastD d = m := by
  induction l with
  | nil =>
    intro d m _ hm _
    simp at hm
  | cons a t ih =>
    intro d m hs hm hmax
    rw [List.getLastD_cons]
    cases t with
    | nil =>
      have : m = a := by simpa using hm
      simpa [List.getLastD_nil] using this.symm
    | cons b t' =>
      have hs' := (List.sorted_cons.mp hs).2
      have hab := (List.sorted_cons.mp hs).1
      have hm' : m ∈ b :: t' := by
        rcases List.mem_cons.mp hm with rfl | hmt
        · have hbm : b ≤ m := hmax b (by simp)
          have hmb : m ≤ b := hab b (by simp)
          have : b = m := Nat.le_antisymm hbm hmb
          rw [← this]
          simp
        · exact hmt
      exact ih a m hs' hm' fun x hx => hmax x (List.mem_cons_of_mem _ hx)

/-- C10: formatTime renders the synthesized end boundary 24 as
"12:00 PM" (display hour 12, classified PM), so any selection whose
largest hour is 23 is rendered as ending at "12:00 PM" — noon, not
midnight "12:00 AM". -/
theorem range_ending_at_23_renders_noon :
    formatTime 24 = "12:00 PM" ∧
    ∀ hours : List Nat, 23 ∈ hours → (∀ x ∈ hours, x ≤ 23) →
      ∃ st, formatTimeRange hours = st ++ " to " ++ formatTime 24 := by
  refine ⟨by decide, ?_⟩
  intro hours hmem hmax
  cases hours with
  | nil => simp at hmem
  | cons a t =>
    cases t with
    | nil =>
      have ha : 23 = a := by simpa using hmem
      subst ha
      exact ⟨formatTime 23, rfl⟩
    | cons b t' =>
      have hperm := List.perm_insertionSort (· ≤ ·) (a :: b :: t')
      have hsorted := List.sorted_insertionSort (· ≤ ·) (a :: b :: t')
      have hlast : (List.insertionSort (· ≤ ·) (a :: b :: t')).getLastD 0 = 23 :=
        sorted_getLastD_eq _ 0 23 hsorted (hperm.mem_iff.mpr hmem)
          fun x hx => hmax x (hperm.mem_iff.mp hx)
      refine ⟨formatTime ((List.insertionSort (· ≤ ·) (a :: b :: t')).headD 0), ?_⟩
      simp only [formatTimeRange]
      rw [hlast]

/-- Witness for C10 at the hour list [22, 23]. -/
theorem range_ending_at_23_renders_noon_witness :
    formatTime 24 = "12:00 PM" ∧
    ∃ st, formatTimeRange [22, 23] = st ++ " to " ++ formatTime 24 :=
  ⟨range_ending_at_23_renders_noon.1,
   range_ending_at_23_renders_noon.2 [22, 23] (by decide) (by decide)⟩

end Sixerzone
